import Mathlib

/-!
# Verification of the `jonaz/cron` scheduler

Shallow embedding of the repository's Go sources:

* `sunschedule.go` — the astronomical schedule (`SunSchedule`) built on top of
  a cron-expression day selector and the external `astrotime` library;
* the runner file (`cron.go`) — `Cron`, `Entry`, the `byTime` sort order and
  the control loop's timer-expiry / mutation handling.

Modelling conventions:

* Instants (`time.Time`) are modelled as `Nat` seconds since an epoch aligned
  to local midnight; the zero value `0` is the "zero instant / unscheduled"
  sentinel, `Before` is `<`, `IsZero` is `= 0`, and adding 24 hours adds
  `86400`.
* `time.Now().Local()` is passed in explicitly as a `now : Nat` parameter.
* The external `astrotime` functions (already applied at the fixed coordinates
  `56.878333, 14.809167` and the civil-twilight angle that the source bakes
  in) are a parameter bundle `AstroFns`.
* The cron-expression evaluator `SpecSchedule.Next` is code of the repository
  that is not among the provided sources; where only its result is plumbed
  through it is a function parameter `specNext`, and the parser `getField`
  plus the field bitmask type are modelled from the specification (see the
  doc comments below).
* Go code that panics (out-of-range indexing) or rejects a malformed field is
  modelled with `Option`.
-/

/-- Modelled from the spec: the integer domain of one cron field
(`seconds 0–59, minutes 0–59, hours 0–23, day-of-month 1–31, month 1–12,
day-of-week 0–6, with 7 treated as equivalent to 0`).  `sevenIsZero` is set
only for the day-of-week domain. -/
structure Bounds where
  min : Nat
  max : Nat
  sevenIsZero : Bool
deriving DecidableEq, Repr

def seconds : Bounds := ⟨0, 59, false⟩
def minutes : Bounds := ⟨0, 59, false⟩
def hours : Bounds := ⟨0, 23, false⟩
def dom : Bounds := ⟨1, 31, false⟩
def months : Bounds := ⟨1, 12, false⟩
def dow : Bounds := ⟨0, 6, true⟩

/-- Modelled from the spec: a `BitmaskField` is an immutable bit set over the
field's domain (`bits`, bit `v` set iff value `v` is admissible) together with
the "unrestricted" predicate, which is `true` only when the field was
constructed from an explicit wildcard `*`. -/
structure BitmaskField where
  bits : Nat
  unrestricted : Bool
deriving DecidableEq, Repr

/-- Modelled from the spec: the admissible-value bits of an arithmetic range
`lo-hi` stepped by `step`, refused when an endpoint falls outside the domain
(`MalformedFieldError`). -/
def rangeBits (b : Bounds) (lo hi step : Nat) : Option Nat :=
  if lo < b.min ∨ b.max < hi ∨ hi < lo then none
  else some ((List.range (hi + 1 - lo)).foldl
    (fun acc i => if i % step = 0 then acc ||| (1 <<< (lo + i)) else acc) 0)

/-- Modelled from the spec: day-of-week value `7` is treated as equivalent to
`0`; other domains are unaffected. -/
def normValue (b : Bounds) (v : Nat) : Nat :=
  if b.sevenIsZero ∧ v = 7 then 0 else v

/-- Split a character list at every occurrence of `sep` (the separator is
dropped; empty pieces are kept, as with `strings.Split`). -/
def splitOnChar (sep : Char) : List Char → List (List Char)
  | [] => [[]]
  | c :: cs =>
    let r := splitOnChar sep cs
    if c = sep then [] :: r
    else match r with
      | [] => [[c]]
      | w :: ws => (c :: w) :: ws

/-- Decimal number parser over a character list. -/
def toNatL (cs : List Char) : Option Nat :=
  if cs ≠ [] ∧ cs.all (fun c => c.isDigit) then
    some (cs.foldl (fun n c => n * 10 + (c.toNat - 48)) 0)
  else none

/-- Modelled from the spec: one comma-separated part of a field descriptor —
a wildcard `*`, a single number, or a range `a-b` — expanded with the given
step into its admissible-value bits. -/
def parseBase (b : Bounds) (base : List Char) (step : Nat) : Option Nat :=
  if base = ['*'] then rangeBits b b.min b.max step
  else match splitOnChar '-' base with
    | [v] => do
        let n ← toNatL v
        rangeBits b (normValue b n) (normValue b n) step
    | [lo, hi] => do
        let nlo ← toNatL lo
        let nhi ← toNatL hi
        rangeBits b nlo nhi step
    | _ => none

/-- Modelled from the spec: a comma-part with an optional `/n` step suffix;
a non-positive step is a `MalformedFieldError`. -/
def parsePart (b : Bounds) (s : List Char) : Option Nat :=
  match splitOnChar '/' s with
  | [base] => parseBase b base 1
  | [base, stepStr] => do
      let step ← toNatL stepStr
      if step = 0 then none else parseBase b base step
  | _ => none

/-- Modelled from the spec: the excluded parser's `getField` — it turns one
normalized field descriptor (wildcard, value, comma list, range, or stepped
range) over the domain `b` into a `BitmaskField`; the field is "unrestricted"
exactly when the whole descriptor is the explicit wildcard `*`. -/
def getField (s : String) (b : Bounds) : Option BitmaskField := do
  let parts ← (splitOnChar ',' s.data).mapM (parsePart b)
  pure { bits := parts.foldl (fun a x => a ||| x) 0, unrestricted := s == "*" }

/-- Modelled from the spec: the cron-expression schedule (`SpecSchedule` in
the source) is a record of six `BitmaskField`s; its `Next` algorithm is not
among the provided sources and is kept as an explicit function parameter
(`specNext`) wherever the sources merely call it. -/
structure SpecSchedule where
  Second : BitmaskField
  Minute : BitmaskField
  Hour : BitmaskField
  Dom : BitmaskField
  Month : BitmaskField
  Dow : BitmaskField
deriving DecidableEq, Repr

/-! ## SunSchedule (`sunschedule.go`) -/

/-- Go struct `SunSchedule { state string; fields []string }`. -/
structure SunSchedule where
  state : String
  fields : List String
deriving DecidableEq, Repr

/-- The `strings.Fields` splitter (Go standard library): split around runs of
whitespace, producing the non-empty words.  `acc` is the current word,
reversed. -/
def goFieldsAux (acc : List Char) : List Char → List String
  | [] => if acc.isEmpty then [] else [String.mk acc.reverse]
  | c :: cs =>
    if c.isWhitespace then
      if acc.isEmpty then goFieldsAux [] cs
      else String.mk acc.reverse :: goFieldsAux [] cs
    else goFieldsAux (c :: acc) cs

def goFieldsL (cs : List Char) : List String := goFieldsAux [] cs

/-- Constructor `NewSunSchedule` (`sunschedule.go` lines 16–36): strip the leading byte
(`state = state[1:]` — a panic on the empty string, modelled as `none`),
split into whitespace-separated fields, pad a 1/2/3-field list with `"*"`
entries, and record `state = fields[0]`, `fields = fields[1:]` (a panic when
no fields remain, modelled as `none`). -/
def NewSunSchedule (s : String) : Option SunSchedule :=
  match s.data with
  | [] => none
  | _ :: rest =>
    let fields := goFieldsL rest
    let fields := if fields.length = 1 then fields ++ ["*", "*", "*"] else fields
    let fields := if fields.length = 2 then fields ++ ["*", "*"] else fields
    let fields := if fields.length = 3 then fields ++ ["*"] else fields
    match fields with
    | [] => none
    | st :: rest' => some { state := st, fields := rest' }

/-- The external `astrotime` functions as called by `getSun`: each is already
applied at the fixed coordinates (and, for dusk/dawn, the civil-twilight
angle) that the source passes as constants. -/
structure AstroFns where
  nextSunset : Nat → Nat
  nextSunrise : Nat → Nat
  nextDusk : Nat → Nat
  nextDawn : Nat → Nat

/-- Method `SunSchedule.getSun` (`sunschedule.go` lines 71–84): dispatch on the
event kind; an unknown kind falls through to `time.Time{}`, the zero
instant. -/
def SunSchedule.getSun (A : AstroFns) (s : SunSchedule) (basetime : Nat) : Nat :=
  if s.state = "sunset" then A.nextSunset basetime
  else if s.state = "sunrise" then A.nextSunrise basetime
  else if s.state = "dusk" then A.nextDusk basetime
  else if s.state = "dawn" then A.nextDawn basetime
  else 0

/-- The internal cron expression built inside `SunSchedule.next`
(`sunschedule.go` lines 42–49): note the source passes the literal `"1"`, not
`"*"`, for the second field, and copies the schedule's own three restriction
fields into Dom/Month/Dow.  Out-of-range field access (`s.fields[i]`) is a
Go panic; `List.getD` with the unparsable default `""` models it as a parse
failure. -/
def buildInternal (s : SunSchedule) : Option SpecSchedule := do
  let sec ← getField "1" seconds
  let mi ← getField "*" minutes
  let hr ← getField "*" hours
  let d ← getField (s.fields.getD 0 "") dom
  let mo ← getField (s.fields.getD 1 "") months
  let dw ← getField (s.fields.getD 2 "") dow
  pure ⟨sec, mi, hr, d, mo, dw⟩

/-- The start-of-day computation in `SunSchedule.next` (`sunschedule.go`
lines 52–54): `now.Truncate(time.Hour).Add(-now.Hour() * time.Hour)`, under
the local-midnight-aligned epoch convention. -/
def startOfDay (now : Nat) : Nat :=
  (now - now % 3600) - (now / 3600 % 24) * 3600

/-- Method `SunSchedule.next` (`sunschedule.go` lines 40–56): build the internal
expression schedule and evaluate its `Next` from the start of the *current*
day (`time.Now().Local()`, the `now` parameter); the reference instant plays
no part. -/
def SunSchedule.next (specNext : SpecSchedule → Nat → Nat) (s : SunSchedule)
    (now : Nat) : Option Nat :=
  (buildInternal s).map (fun schedule => specNext schedule (startOfDay now))

/-- Method `SunSchedule.Next` (`sunschedule.go` lines 58–70): resolve the event on
the selected day; if the result is `Before(time.Now().Local())` — strictly
before the current wall-clock instant, not the argument `t` — add 24 hours to
the base day, once, and re-resolve.  The reference instant `t` is never
read. -/
def SunSchedule.Next (A : AstroFns) (specNext : SpecSchedule → Nat → Nat)
    (s : SunSchedule) (now t : Nat) : Option Nat :=
  (s.next specNext now).map (fun basetime =>
    let basetime := if s.getSun A basetime < now then basetime + 86400 else basetime
    s.getSun A basetime)

/-! ## Runner (`cron.go`) -/

/-- Go struct `Entry` from the runner: the `Schedule` interface has the
single method `Next(time.Time) time.Time`, modelled as a function; `Job` is
an opaque handle. -/
structure Entry where
  Schedule : Nat → Nat
  Next : Nat
  Prev : Nat
  Job : Nat
  ID : Int
  Status : Nat

/-- Go struct `Cron` (channels are interaction, not state, and are not
carried here). -/
structure Cron where
  entries : List Entry
  running : Bool
  count : Int

/-- A command sent into the control loop over one of the `Cron` channels. -/
inductive CronCmd
  | remove (id : Int)
  | removeAll

/-- Comparator `byTime.Less` (runner lines 66–77): two zero times compare `false`; a
zero time is greater than any non-zero time; otherwise compare `Next` with
`Before`. -/
def byTimeLess (a b : Entry) : Bool :=
  if a.Next = 0 then false
  else if b.Next = 0 then true
  else a.Next < b.Next

/-- The non-strict order realized by `byTime`: `a` may sit before `b` iff
`Less b a` fails. -/
def entryLE (a b : Entry) : Prop :=
  b.Next = 0 ∨ (a.Next ≠ 0 ∧ a.Next ≤ b.Next)

/-- The call `sort.Sort(byTime(c.entries))` — the standard-library sort, modelled by
`mergeSort` under the complement of `Less`. -/
def sortEntries (l : List Entry) : List Entry :=
  l.mergeSort (fun a b => !byTimeLess b a)

/-- The call `time.AddDate(10, 0, 0)`: ten (non-calendar-exact, the exact figure is
irrelevant to every claim) years ahead. -/
def tenYears : Nat := 10 * 365 * 86400

/-- The top of each control-loop iteration (runner lines 215–226): re-sort
the whole collection, then take the head's next-run instant as the wake-up
instant — or a far-future instant when the collection is empty or the head is
unscheduled. -/
def Cron.sortAndChoose (now : Nat) (entries : List Entry) : List Entry × Nat :=
  let sorted := sortEntries entries
  match sorted with
  | [] => ([], now + tenYears)
  | e :: es => (e :: es, if e.Next = 0 then now + tenYears else e.Next)

/-- The timer-expiry branch (runner lines 230–240): walk the (sorted)
collection, `break` at the first entry whose `Next` differs from the fired
instant; for each preceding entry dispatch its job when `Status == 0`
(collected here as the list of dispatched entry IDs — the goroutine itself is
concurrency, outside the model), set `Prev` to its `Next` and recompute
`Next` from the schedule at the fired instant. -/
def runDue : List Entry → Nat → List Entry × List Int
  | [], _ => ([], [])
  | e :: es, eff =>
    if e.Next ≠ eff then (e :: es, [])
    else
      let fired := if e.Status = 0 then [e.ID] else []
      let rec_ := runDue es eff
      ({ e with Prev := e.Next, Next := e.Schedule eff } :: rec_.1, fired ++ rec_.2)

/-- Method `Cron.removeJob` (runner lines 122–132): in-place compaction keeping, in
order, every entry whose `ID` differs from `id`. -/
def Cron.removeJob : List Entry → Int → List Entry
  | [], _ => []
  | x :: xs, id => if id = x.ID then Cron.removeJob xs id else x :: Cron.removeJob xs id

/-- Method `Cron.PauseFunc` (runner lines 134–141): set `Status = 1` on the first
entry with the matching `ID`, then `break`. -/
def Cron.pauseFunc : List Entry → Int → List Entry
  | [], _ => []
  | x :: xs, id => if id = x.ID then { x with Status := 1 } :: xs else x :: Cron.pauseFunc xs id

/-- Method `Cron.ResumeFunc` (runner lines 143–150): set `Status = 0` on the first
entry with the matching `ID`, then `break`. -/
def Cron.resumeFunc : List Entry → Int → List Entry
  | [], _ => []
  | x :: xs, id => if id = x.ID then { x with Status := 0 } :: xs else x :: Cron.resumeFunc xs id

/-- Caller-side `Cron.RemoveJob` (runner lines 100–108): a no-op returning
immediately when the loop is not running; otherwise the id is offered to the
`remove` channel (delivery or its 1-second timeout is interaction beyond the
state model — the caller's own state is unchanged either way). -/
def Cron.RemoveJob (c : Cron) (id : Int) : Cron × Option CronCmd :=
  if !c.running then (c, none)
  else (c, some (CronCmd.remove id))

/-- Caller-side `Cron.RemoveAll` (runner lines 111–121): when the loop is not
running it directly sets `c.entries = nil` and returns; otherwise the command
is offered to the `removeAll` channel. -/
def Cron.RemoveAll (c : Cron) : Cron × Option CronCmd :=
  if !c.running then ({ c with entries := [] }, none)
  else (c, some CronCmd.removeAll)

/-! ## Concrete instances used by closed theorems and witnesses -/

/-- A stand-in for the astronomical black box whose events fall a fixed
offset after the queried base instant (and strictly after it, as `astrotime`
guarantees). -/
def A1 : AstroFns := ⟨fun b => b + 100, fun b => b + 200, fun b => b + 300, fun b => b + 400⟩

/-- A second stand-in whose sunset falls only 10 seconds after the base
instant, so that a morning `now` finds it already in the past. -/
def A2 : AstroFns := ⟨fun b => b + 10, fun b => b + 20, fun b => b + 30, fun b => b + 40⟩

/-- A stand-in for the missing `SpecSchedule.Next`: the next qualifying
instant 30 seconds after the queried instant. -/
def sn1 : SpecSchedule → Nat → Nat := fun _ d => d + 30

/-- A second stand-in for `SpecSchedule.Next` returning 5 seconds after the
queried instant. -/
def sn2 : SpecSchedule → Nat → Nat := fun _ d => d + 5

/-- The `@sunset` schedule as `NewSunSchedule` constructs it. -/
def s1 : SunSchedule := ⟨"sunset", ["*", "*", "*"]⟩

/-- The internal expression schedule `buildInternal` produces for `s1`:
seconds restricted to the single value 1, everything else a full wildcard. -/
def sched5 : SpecSchedule :=
  ⟨⟨2, false⟩, ⟨2 ^ 60 - 1, true⟩, ⟨2 ^ 24 - 1, true⟩,
   ⟨2 ^ 32 - 2, true⟩, ⟨2 ^ 13 - 2, true⟩, ⟨127, true⟩⟩

/-- The full-wildcard seconds field, for comparison with `sched5.Second`. -/
def wSec5 : BitmaskField := ⟨2 ^ 60 - 1, true⟩

/-- An entry template: a schedule firing 60 seconds after the queried
instant. -/
def mkEntry (nx : Nat) (id : Int) (st : Nat) : Entry :=
  { Schedule := fun x => x + 60, Next := nx, Prev := 0, Job := 0, ID := id, Status := st }

def F1 : Entry := mkEntry 5 1 0
def F2 : Entry := mkEntry 5 2 1
def F3 : Entry := mkEntry 9 3 0

def zE : Entry := mkEntry 0 4 0
def nE : Entry := mkEntry 5 5 0

def w7a : Entry := mkEntry 3 1 0
def w7b : Entry := mkEntry 4 2 0

def w9a : Entry := mkEntry 3 1 0
def w9b : Entry := mkEntry 4 2 0

def E6 : Entry := mkEntry 5 1 0

/-- A stopped `Cron` holding one entry. -/
def C6c : Cron := ⟨[E6], false, 1⟩

instance : DecidableRel entryLE := fun a b => by unfold entryLE; exact inferInstance

/-! ## Theorems -/

/-- Helper for C7: the compaction loop is `filter`. -/
theorem removeJob_eq_filter (l : List Entry) (id : Int) :
    Cron.removeJob l id = l.filter (fun x => x.ID != id) := by
  induction l with
  | nil => rfl
  | cons x xs ih =>
    by_cases h : id = x.ID
    · subst h
      have hb : (x.ID != x.ID) = false := by simp
      simp [Cron.removeJob, List.filter_cons, hb, ih]
    · have hb : (x.ID != id) = true := by simp [Ne.symm h]
      simp [Cron.removeJob, h, List.filter_cons, hb, ih]

/-- C7: for every entry list and identifier, `removeJob` deletes exactly the
entries whose identifier matches, preserves the relative order of the
remaining entries (the result is a sublist of the input), and leaves the list
unchanged when no entry matches. -/
theorem removeJob_deletes_matching_preserves_order (l : List Entry) (id : Int) :
    Cron.removeJob l id = l.filter (fun x => x.ID != id) ∧
    (Cron.removeJob l id).Sublist l ∧
    ((∀ x ∈ l, x.ID ≠ id) → Cron.removeJob l id = l) ∧
    (∀ x ∈ Cron.removeJob l id, x.ID ≠ id) := by
  refine ⟨removeJob_eq_filter l id, ?_, ?_, ?_⟩
  · rw [removeJob_eq_filter]; exact List.filter_sublist l
  · intro h
    rw [removeJob_eq_filter]
    apply List.filter_eq_self.mpr
    intro a ha
    simpa using h a ha
  · intro x hx
    rw [removeJob_eq_filter] at hx
    simpa using (List.of_mem_filter hx)

/-- Witness for C7 at a concrete list and identifier. -/
theorem removeJob_deletes_matching_preserves_order_witness :
    Cron.removeJob [w7a, w7b] 2 = [w7a] ∧ (∀ x ∈ Cron.removeJob [w7a, w7b] 2, x.ID ≠ 2) := by
  have h := removeJob_deletes_matching_preserves_order [w7a, w7b] 2
  exact ⟨h.1.trans (by rfl), h.2.2.2⟩

/-- Counterexample for C6: `RemoveAll` issued while the loop is not running
does have an observable effect — it clears a non-empty entry collection. -/
theorem removeAll_stopped_clears_entries :
    (Cron.RemoveAll C6c).1.entries = [] ∧ C6c.entries = [E6] ∧
    (Cron.RemoveAll C6c).1.entries ≠ C6c.entries := by
  refine ⟨rfl, rfl, ?_⟩
  intro h
  rw [show (Cron.RemoveAll C6c).1.entries = [] from rfl] at h
  exact (List.cons_ne_nil E6 []) h.symm

/-- C6 (amended): while the loop is not running, `RemoveJob` returns
immediately with no effect and sends nothing, and `RemoveAll` returns
immediately, sends nothing, and directly clears the entry collection. -/
theorem mutation_while_stopped (c : Cron) (id : Int) (h : c.running = false) :
    Cron.RemoveJob c id = (c, none) ∧ Cron.RemoveAll c = ({ c with entries := [] }, none) := by
  constructor <;> simp [Cron.RemoveJob, Cron.RemoveAll, h]

/-- Witness for the amended C6 at a concrete stopped runner. -/
theorem mutation_while_stopped_witness :
    Cron.RemoveJob C6c 3 = (C6c, none) ∧
    Cron.RemoveAll C6c = ({ C6c with entries := [] }, none) :=
  mutation_while_stopped C6c 3 rfl

/-- C9: `PauseFunc` and `ResumeFunc` either leave the collection unchanged
(no entry matches) or split it as `pre ++ x :: post` around the first
matching entry and change only that entry's `Status` (to 1 and 0
respectively), leaving every other field, every other entry, and the length
and order untouched. -/
theorem pause_resume_first_match_frame (l : List Entry) (id : Int) :
    ((∀ x ∈ l, x.ID ≠ id) ∧ Cron.pauseFunc l id = l ∧ Cron.resumeFunc l id = l) ∨
    (∃ pre x post, l = pre ++ x :: post ∧ x.ID = id ∧ (∀ y ∈ pre, y.ID ≠ id) ∧
      Cron.pauseFunc l id = pre ++ { x with Status := 1 } :: post ∧
      Cron.resumeFunc l id = pre ++ { x with Status := 0 } :: post) := by
  induction l with
  | nil => exact Or.inl ⟨by simp, rfl, rfl⟩
  | cons e es ih =>
    by_cases h : id = e.ID
    · refine Or.inr ⟨[], e, es, by simp, h.symm, by simp, ?_, ?_⟩
      · simp [Cron.pauseFunc, h]
      · simp [Cron.resumeFunc, h]
    · rcases ih with ⟨h1, h2, h3⟩ | ⟨pre, x, post, hl, hx, hpre, hp, hr⟩
      · refine Or.inl ⟨?_, ?_, ?_⟩
        · intro y hy
          rcases List.mem_cons.mp hy with rfl | hy'
          · exact fun hc => h hc.symm
          · exact h1 y hy'
        · simp [Cron.pauseFunc, h, h2]
        · simp [Cron.resumeFunc, h, h3]
      · refine Or.inr ⟨e :: pre, x, post, by simp [hl], hx, ?_, ?_, ?_⟩
        · intro y hy
          rcases List.mem_cons.mp hy with rfl | hy'
          · exact fun hc => h hc.symm
          · exact hpre y hy'
        · simp [Cron.pauseFunc, h, hp]
        · simp [Cron.resumeFunc, h, hr]

/-- Witness for C9 at a concrete two-entry list and identifier. -/
theorem pause_resume_first_match_frame_witness :
    ((∀ x ∈ [w9a, w9b], x.ID ≠ (2 : Int)) ∧ Cron.pauseFunc [w9a, w9b] 2 = [w9a, w9b] ∧
      Cron.resumeFunc [w9a, w9b] 2 = [w9a, w9b]) ∨
    (∃ pre x post, [w9a, w9b] = pre ++ x :: post ∧ x.ID = (2 : Int) ∧
      (∀ y ∈ pre, y.ID ≠ (2 : Int)) ∧
      Cron.pauseFunc [w9a, w9b] 2 = pre ++ { x with Status := 1 } :: post ∧
      Cron.resumeFunc [w9a, w9b] 2 = pre ++ { x with Status := 0 } :: post) :=
  pause_resume_first_match_frame [w9a, w9b] 2

/-- Helper for C3: once the loop breaks at an entry whose next-run differs
from the fired instant, sortedness guarantees no later entry equals it. -/
theorem break_sound (eff : Nat) (hnz : eff ≠ 0) (e : Entry) (es : List Entry)
    (hrel : ∀ e2 ∈ es, entryLE e e2)
    (hlb : e.Next = 0 ∨ eff ≤ e.Next) (hne : e.Next ≠ eff) :
    ∀ e2 ∈ es, e2.Next ≠ eff := by
  intro e2 he2
  rcases hrel e2 he2 with hz | ⟨hnz1, hle⟩
  · rw [hz]; exact fun hc => hnz hc.symm
  · rcases hlb with hz | hle1
    · exact absurd hz hnz1
    · have : eff < e.Next := lt_of_le_of_ne hle1 (fun hc => hne hc.symm)
      have : eff < e2.Next := lt_of_lt_of_le this hle
      omega

/-- Helper for C3: the timer-expiry walk, on a collection sorted with the
fired instant a lower bound of every scheduled entry, updates exactly the
entries due at the fired instant and collects exactly the active ones. -/
theorem runDue_go (eff : Nat) (hnz : eff ≠ 0) :
    ∀ l : List Entry, List.Pairwise entryLE l →
      (∀ e ∈ l, e.Next = 0 ∨ eff ≤ e.Next) →
      (runDue l eff).1 = l.map (fun e =>
          if e.Next = eff then { e with Prev := eff, Next := e.Schedule eff } else e) ∧
      (runDue l eff).2 =
        (l.filter (fun e => e.Next == eff && e.Status == 0)).map (fun e => e.ID) := by
  intro l
  induction l with
  | nil => intro _ _; exact ⟨rfl, rfl⟩
  | cons e es ih =>
    intro hpw hlb
    rcases List.pairwise_cons.mp hpw with ⟨hrel, hpw'⟩
    by_cases h : e.Next = eff
    · have hih := ih hpw' (fun e2 he2 => hlb e2 (List.mem_cons_of_mem e he2))
      have hstep : runDue (e :: es) eff =
          ({ e with Prev := e.Next, Next := e.Schedule eff } :: (runDue es eff).1,
           (if e.Status = 0 then [e.ID] else []) ++ (runDue es eff).2) := by
        simp only [runDue, if_neg (not_not_intro h)]
      constructor
      · rw [hstep, List.map_cons, if_pos h, hih.1, h]
      · rw [hstep, List.filter_cons]
        have hb : (e.Next == eff) = true := by simpa using h
        rw [hb, Bool.true_and, hih.2]
        by_cases hs : e.Status = 0
        · have : (e.Status == 0) = true := by simpa using hs
          simp [this, hs]
        · have : (e.Status == 0) = false := by simpa using hs
          simp [this, hs]
    · have hnone : ∀ e2 ∈ es, e2.Next ≠ eff :=
        break_sound eff hnz e es hrel (hlb e (List.mem_cons_self e es)) h
      have h1 : (runDue (e :: es) eff).1 = e :: es := by
        simp only [runDue, if_pos h]
      have h2 : (runDue (e :: es) eff).2 = [] := by
        simp only [runDue, if_pos h]
      constructor
      · rw [h1, List.map_cons, if_neg h]
        congr 1
        symm
        conv_rhs => rw [← List.map_id es]
        apply List.map_congr_left
        intro e2 he2
        rw [if_neg (hnone e2 he2)]
        rfl
      · rw [h2, List.filter_cons]
        have hb : (e.Next == eff && e.Status == 0) = false := by
          simp [h]
        rw [hb]
        symm
        rw [List.filter_eq_nil_iff.mpr ?_]
        · rfl
        · intro a ha
          simp [hnone a ha]

/-- C3: on timer expiry over the sorted collection whose head is due at the
(non-zero) fired instant, every entry due at that instant has its
previous-run set to the fired instant and its next-run recomputed from its
schedule at the fired instant, the jobs dispatched are exactly those of the
due entries with active status (`Status = 0`), and every other entry is left
untouched. -/
theorem runDue_fires_exactly_due_entries (l : List Entry) (e0 : Entry)
    (rest : List Entry) (eff : Nat) (hE : l = e0 :: rest)
    (hPW : List.Pairwise entryLE l) (heff : eff = e0.Next) (hnz : eff ≠ 0) :
    (runDue l eff).1 = l.map (fun e =>
        if e.Next = eff then { e with Prev := eff, Next := e.Schedule eff } else e) ∧
    (runDue l eff).2 =
      (l.filter (fun e => e.Next == eff && e.Status == 0)).map (fun e => e.ID) := by
  apply runDue_go eff hnz l hPW
  intro e he
  subst hE
  rcases List.mem_cons.mp he with rfl | he'
  · right; omega
  · rcases (List.pairwise_cons.mp hPW).1 e he' with hz | ⟨_, hle⟩
    · left; exact hz
    · right; omega

/-- Witness for C3 at a concrete three-entry sorted collection fired at
instant 5: the two due entries (one active, one paused) are updated, only the
active one dispatches, and the third entry is untouched. -/
theorem runDue_fires_exactly_due_entries_witness :
    (runDue [F1, F2, F3] 5).1 = [F1, F2, F3].map (fun e =>
        if e.Next = 5 then { e with Prev := 5, Next := e.Schedule 5 } else e) ∧
    (runDue [F1, F2, F3] 5).2 =
      ([F1, F2, F3].filter (fun e => e.Next == 5 && e.Status == 0)).map (fun e => e.ID) :=
  runDue_fires_exactly_due_entries [F1, F2, F3] F1 [F2, F3] 5 rfl
    (by decide) (by decide) (by decide)

/-- Helper for C4: the complement of `byTime.Less` is total. -/
theorem leB_total (a b : Entry) : (!byTimeLess b a) = true ∨ (!byTimeLess a b) = true := by
  unfold byTimeLess
  by_cases ha : a.Next = 0 <;> by_cases hb : b.Next = 0 <;> simp [ha, hb] <;> omega

/-- Helper for C4: the complement of `byTime.Less` is transitive. -/
theorem leB_trans (a b c : Entry) (h1 : (!byTimeLess b a) = true)
    (h2 : (!byTimeLess c b) = true) : (!byTimeLess c a) = true := by
  unfold byTimeLess at *
  by_cases ha : a.Next = 0 <;> by_cases hb : b.Next = 0 <;> by_cases hc : c.Next = 0 <;>
    simp [ha, hb, hc] at * <;> omega

/-- Helper for C4: the complement of `byTime.Less` realizes the
next-run-ascending-zeros-last order. -/
theorem leB_iff_entryLE (a b : Entry) : (!byTimeLess b a) = true ↔ entryLE a b := by
  unfold byTimeLess entryLE
  by_cases ha : a.Next = 0 <;> by_cases hb : b.Next = 0 <;> simp [ha, hb] <;> omega

/-- C4: the `byTime` comparator returns `false` on two unscheduled (zero)
next-run instants, ranks an unscheduled instant after any scheduled one, and
otherwise orders by `Next.Before`; and the collection the control loop
observes when choosing its wake-up instant is the freshly recomputed full
sort of the current entries — a permutation of them, pairwise ordered by
next-run ascending with unscheduled entries last. -/
theorem control_loop_sorted_observation :
    (∀ a b : Entry,
      (a.Next = 0 → byTimeLess a b = false) ∧
      (a.Next ≠ 0 → b.Next = 0 → byTimeLess a b = true) ∧
      (a.Next ≠ 0 → b.Next ≠ 0 → (byTimeLess a b = true ↔ a.Next < b.Next))) ∧
    (∀ (now : Nat) (entries : List Entry),
      (Cron.sortAndChoose now entries).1 = sortEntries entries ∧
      List.Pairwise entryLE (Cron.sortAndChoose now entries).1 ∧
      ((Cron.sortAndChoose now entries).1).Perm entries) := by
  constructor
  · intro a b
    refine ⟨?_, ?_, ?_⟩
    · intro h; simp [byTimeLess, h]
    · intro ha hb; simp [byTimeLess, ha, hb]
    · intro ha hb; simp [byTimeLess, ha, hb]
  · intro now entries
    have h1 : (Cron.sortAndChoose now entries).1 = sortEntries entries := by
      unfold Cron.sortAndChoose
      cases hs : sortEntries entries with
      | nil => simp [hs]
      | cons e es => simp [hs]
    refine ⟨h1, ?_, ?_⟩
    · rw [h1]
      unfold sortEntries
      have hsorted := @List.sorted_mergeSort Entry (fun a b => !byTimeLess b a)
        (fun a b c => leB_trans a b c)
        (fun a b => by rcases leB_total a b with h | h <;> simp [h])
        entries
      exact hsorted.imp (fun h => (leB_iff_entryLE _ _).mp h)
    · rw [h1]
      exact List.mergeSort_perm entries _

/-- Witness for C4 at a concrete unsorted two-entry collection containing an
unscheduled entry. -/
theorem control_loop_sorted_observation_witness :
    byTimeLess zE nE = false ∧
    List.Pairwise entryLE (Cron.sortAndChoose 0 [nE, zE]).1 ∧
    ((Cron.sortAndChoose 0 [nE, zE]).1).Perm [nE, zE] :=
  ⟨(control_loop_sorted_observation.1 zE nE).1 rfl,
   (control_loop_sorted_observation.2 0 [nE, zE]).2.1,
   (control_loop_sorted_observation.2 0 [nE, zE]).2.2⟩

/-- C8: an astronomical descriptor `@event` followed by zero to three
restriction fields constructs a schedule whose `state` is the event kind with
the leading `@` stripped and whose restriction fields are the given ones
padded with `"*"` to exactly three. -/
theorem newSunSchedule_pads_fields (s : String) (cs : List Char) (event : String)
    (restr : List String) (hs : s.data = '@' :: cs)
    (hf : goFieldsL cs = event :: restr) (hlen : restr.length ≤ 3) :
    NewSunSchedule s = some { state := event,
                              fields := restr ++ List.replicate (3 - restr.length) "*" } ∧
    (restr ++ List.replicate (3 - restr.length) "*").length = 3 := by
  obtain ⟨sd⟩ := s
  change sd = '@' :: cs at hs
  subst hs
  rcases restr with _ | ⟨a, _ | ⟨b, _ | ⟨c, _ | ⟨d, r⟩⟩⟩⟩
  · exact ⟨by simp [NewSunSchedule, hf], by simp⟩
  · exact ⟨by simp [NewSunSchedule, hf], by simp⟩
  · exact ⟨by simp [NewSunSchedule, hf], by simp⟩
  · exact ⟨by simp [NewSunSchedule, hf], by simp⟩
  · simp at hlen

/-- Witness for C8: a two-field descriptor gains one `"*"` pad. -/
theorem newSunSchedule_pads_fields_witness :
    NewSunSchedule "@dawn 5 6" = some { state := "dawn", fields := ["5", "6", "*"] } := by
  have h := newSunSchedule_pads_fields "@dawn 5 6" ("dawn 5 6".data) "dawn" ["5", "6"]
    (by decide) (by decide) (by decide)
  simpa using h.1

/-- C10: construction of a schedule whose event kind is not one of
sunset/sunrise/dusk/dawn succeeds without error, and its `Next` collapses to
the zero instant (the unscheduled sentinel) for every reference instant,
every current time, and every behavior of the black boxes. -/
theorem unknown_event_returns_zero_instant (s : String) (cs : List Char) (k : String)
    (restr : List String) (sched : SunSchedule)
    (hs : s.data = '@' :: cs) (hf : goFieldsL cs = k :: restr)
    (hk1 : k ≠ "sunset") (hk2 : k ≠ "sunrise") (hk3 : k ≠ "dusk") (hk4 : k ≠ "dawn")
    (hc : NewSunSchedule s = some sched) :
    sched.state = k ∧
    ∀ (A : AstroFns) (specNext : SpecSchedule → Nat → Nat) (now t : Nat),
      SunSchedule.Next A specNext sched now t =
        (sched.next specNext now).map (fun _ => 0) := by
  have hstate : sched.state = k := by
    obtain ⟨sd⟩ := s
    change sd = '@' :: cs at hs
    subst hs
    rcases restr with _ | ⟨a, _ | ⟨b, _ | ⟨c, _ | ⟨d, r⟩⟩⟩⟩ <;>
      · simp [NewSunSchedule, hf] at hc
        rw [← hc]
  refine ⟨hstate, ?_⟩
  intro A specNext now t
  have hg : ∀ b, SunSchedule.getSun A sched b = 0 := by
    intro b
    unfold SunSchedule.getSun
    rw [hstate]
    simp [hk1, hk2, hk3, hk4]
  unfold SunSchedule.Next
  cases hn : sched.next specNext now with
  | none => simp
  | some b => simp [hg]

/-- Witness for C10: the descriptor `@foo` constructs successfully and its
`Next` yields the zero instant. -/
theorem unknown_event_returns_zero_instant_witness :
    NewSunSchedule "@foo" = some ⟨"foo", ["*", "*", "*"]⟩ ∧
    SunSchedule.Next A1 sn1 ⟨"foo", ["*", "*", "*"]⟩ 100 7 = some 0 := by
  refine ⟨by decide, ?_⟩
  have h := unknown_event_returns_zero_instant "@foo" ("foo".data) "foo" []
    ⟨"foo", ["*", "*", "*"]⟩ (by decide) (by decide)
    (by decide) (by decide) (by decide) (by decide) (by decide)
  exact (h.2 A1 sn1 100 7).trans (by decide)

/-- C1 (failing on the code): `SunSchedule.Next` never reads its reference
instant — its value is the same for every `t` — so at the concrete instance
below it returns a non-zero activation instant `86530` even for the much
later reference instant `t = 1000000`, contradicting "strictly greater than
`t` or the zero sentinel".  The `now`-guard in the source compares against
the current wall-clock instant, not against `t`. -/
theorem sunScheduleNext_ignores_reference_instant :
    NewSunSchedule "@sunset" = some s1 ∧
    SunSchedule.Next A1 sn1 s1 86400 1000000 = some 86530 ∧
    (86530 : Nat) ≤ 1000000 ∧ (86530 : Nat) ≠ 0 ∧
    (∀ t : Nat, SunSchedule.Next A1 sn1 s1 86400 t = some 86530) := by
  have h2 : SunSchedule.Next A1 sn1 s1 86400 1000000 = some 86530 := by decide
  exact ⟨by decide, h2, by decide, by decide, fun t => h2⟩

/-- C2 (failing on the code): the day-advance in `SunSchedule.Next` is a
single `if`, guarded by `resolved.Before(time.Now())`, not a loop against the
original argument `t`.  At the concrete instance below the first resolution
(`86415`) is before `now = 86450`, so the base day advances exactly once and
the call returns `172815` — which is still not after the reference instant
`t = 200000`, and the result does not change with `t`; the canonical
algorithm of the specification would keep advancing until the resolved
instant exceeded `t`. -/
theorem sunScheduleNext_single_advance_against_wallclock :
    SunSchedule.Next A2 sn2 s1 86450 200000 = some 172815 ∧
    (172815 : Nat) ≤ 200000 ∧
    (∀ t : Nat, SunSchedule.Next A2 sn2 s1 86450 t = some 172815) := by
  have h1 : SunSchedule.Next A2 sn2 s1 86450 200000 = some 172815 := by decide
  exact ⟨h1, by decide, fun t => h1⟩

/-- C5 (failing on the code): the internal expression schedule built by
`SunSchedule.next` parses `"1"` — not the full wildcard — for its second
field (`Minute`/`Hour` are wildcards and `Dom`/`Month`/`Dow` are copied from
the restriction fields as claimed), and the day selection evaluates the
internal schedule from the start of the current wall-clock day, with the
reference instant playing no part. -/
theorem internal_schedule_second_not_wildcard :
    buildInternal s1 = some sched5 ∧
    getField "1" seconds = some sched5.Second ∧
    getField "*" seconds = some wSec5 ∧
    sched5.Second.unrestricted = false ∧
    wSec5.unrestricted = true ∧
    sched5.Second ≠ wSec5 ∧
    sched5.Minute.unrestricted = true ∧
    sched5.Hour.unrestricted = true ∧
    getField "*" dom = some sched5.Dom ∧
    getField "*" months = some sched5.Month ∧
    getField "*" dow = some sched5.Dow ∧
    (∀ (specNext : SpecSchedule → Nat → Nat) (now : Nat),
      SunSchedule.next specNext s1 now = some (specNext sched5 (startOfDay now))) :=
  ⟨by decide, by decide, by decide, by decide, by decide, by decide, by decide,
   by decide, by decide, by decide, by decide,
   fun specNext now => by
     unfold SunSchedule.next
     rw [show buildInternal s1 = some sched5 from by decide]
     rfl⟩
